import Mathlib

/-!
Shallow embedding of the saferider frontend (a React single-page dashboard)
and proofs of its specification claims.

Sources embedded:
- `src/saferider-FE/src/App.tsx` (second variant, the one with search,
  paging and selection repair): `filteredAll`, `totalPages`, the page-reset
  and page-clamp effects, the selection-repair effect, the fetch effect.
- `src/saferider-FE/src/components/MapView.tsx`: `colorByStatus`,
  `markerImageFor`, the marker/overlay reconciliation effect and the
  viewport-fit call.
- `src/unnamed/part_000` (`CCTVPage`): `filteredCameras`.

Strings from the TypeScript code are modelled as `List Char`; JavaScript's
`String.prototype.trim`, `toLowerCase` and `includes` are modelled by
`trimChars`, `lowerChars` and `containsSub` below.  Coordinates (JS
numbers) are modelled as rationals.
-/

namespace SafeRider

/-- JS `String.prototype.toLowerCase`, on the character-list model. -/
def lowerChars (cs : List Char) : List Char :=
  cs.map Char.toLower

/-- JS `String.prototype.trim`: drop whitespace from both ends. -/
def trimChars (cs : List Char) : List Char :=
  (((cs.dropWhile Char.isWhitespace).reverse.dropWhile Char.isWhitespace)).reverse

/-- JS `hay.includes(needle)`: substring (contiguous) containment test. -/
def containsSub (hay needle : List Char) : Bool :=
  decide (needle <:+: hay)

/-- `Person.status` from `App.tsx`: `"missing" | "found" | "searching"`. -/
inductive Status where
  | missing
  | found
  | searching
deriving DecidableEq, Repr

/-- The `Person` record of `App.tsx` / `MapView.tsx`, restricted to the
fields the verified logic reads (the optional contact/case metadata is
never consulted by the filtering, paging, selection or marker code). -/
structure Person where
  id : List Char
  name : List Char
  status : Status
  lat : ℚ
  lng : ℚ
deriving DecidableEq, Repr

/-- The `CCTVCamera` record of `CCTVPage` (`src/unnamed/part_000`),
restricted to the fields the camera search reads. -/
structure Camera where
  id : List Char
  name : List Char
  location : List Char
deriving DecidableEq, Repr

/-- `filteredAll` from `App.tsx`:
`const s = q.trim().toLowerCase();`
`return s ? people.filter(p => p.name.toLowerCase().includes(s)) : people;`
(the empty string is the only falsy string, so `s ? _ : _` tests
non-emptiness of the trimmed, lowercased query). -/
def filteredAll (q : List Char) (people : List Person) : List Person :=
  let s := lowerChars (trimChars q)
  if s.isEmpty then people
  else people.filter (fun p => containsSub (lowerChars p.name) s)

/-- `filteredCameras` from `CCTVPage` (`src/unnamed/part_000`):
`cameras.filter(camera => camera.name.toLowerCase().includes(searchQuery.toLowerCase()) || camera.location.toLowerCase().includes(searchQuery.toLowerCase()))`. -/
def filteredCameras (searchQuery : List Char) (cameras : List Camera) : List Camera :=
  cameras.filter (fun camera =>
    containsSub (lowerChars camera.name) (lowerChars searchQuery) ||
    containsSub (lowerChars camera.location) (lowerChars searchQuery))

/-- `pageSize = 5` in `App.tsx`. -/
def pageSize : Nat := 5

/-- `totalPages` from `App.tsx`:
`Math.max(1, Math.ceil(filteredAll.length / pageSize))`.
`Math.ceil(n / 5)` on a natural `n` is `(n + 4) / 5` in integer division. -/
def totalPagesOf (n : Nat) : Nat :=
  max 1 ((n + (pageSize - 1)) / pageSize)

/-- The search/paging state of `App` (`people`, `q`, `page`). -/
structure AppState where
  people : List Person
  q : List Char
  page : Nat
deriving DecidableEq, Repr

/-- Total pages of the current filtered set of a state. -/
def AppState.totalPages (st : AppState) : Nat :=
  totalPagesOf (filteredAll st.q st.people).length

/-- The page-clamp effect of `App.tsx`:
`useEffect(() => { if (page > totalPages) setPage(totalPages); }, [totalPages, page]);`. -/
def clampPage (st : AppState) : AppState :=
  if st.page > st.totalPages then { st with page := st.totalPages } else st

/-- The user/data operations that can change the search/paging state. -/
inductive Op where
  | setQuery (q : List Char)
  | setPeople (people : List Person)
  | prevPage
  | nextPage
deriving DecidableEq, Repr

/-- One operation applied to the state, before the clamp effect runs:
- `setQuery q` writes the query; the effect
  `useEffect(() => { setPage(1); }, [q])` resets the page to 1;
- `setPeople` replaces the person list (the fetch landing);
- `prevPage` is `setPage(p => Math.max(1, p - 1))`;
- `nextPage` is `setPage(p => Math.min(totalPages, p + 1))`. -/
def applyOp (st : AppState) : Op → AppState
  | .setQuery q => { st with q := q, page := 1 }
  | .setPeople people => { st with people := people }
  | .prevPage => { st with page := max 1 (st.page - 1) }
  | .nextPage => { st with page := min st.totalPages (st.page + 1) }

/-- One full step: the operation, then the page-clamp effect (which React
runs after the render that the operation triggered). -/
def step (st : AppState) (op : Op) : AppState :=
  clampPage (applyOp st op)

/-- The initial state of `App`: `useState<Person[]>([])`, `useState("")`,
`useState(1)`. -/
def initState : AppState :=
  { people := [], q := [], page := 1 }

/-- The state after a sequence of operations from the initial state. -/
def runOps (ops : List Op) : AppState :=
  ops.foldl step initState

/-- The selection-repair effect of `App.tsx`:
`if (!filteredAll.length) { setSelectedPerson(null); return; }`
`if (!selectedPerson || !filteredAll.some(p => p.id === selectedPerson.id)) { setSelectedPerson(filteredAll[0]); }`. -/
def repairSelection (filtered : List Person) (sel : Option Person) : Option Person :=
  if filtered.isEmpty then none
  else
    match sel with
    | none => filtered.head?
    | some s => if filtered.any (fun p => p.id == s.id) then some s else filtered.head?

/-- The JSON bodies the person fetch can receive, at the granularity the
fetch effect distinguishes them (person arrays are assumed well-formed
where present; the TypeScript code performs no per-record validation). -/
inductive Json where
  /-- a JSON array of person records (`Array.isArray(j)` is true) -/
  | jarr (people : List Person)
  /-- a JSON object whose `people` field is a person array -/
  | jobjPeople (people : List Person)
  /-- a JSON object whose `people` field is present and holds a non-nullish
  value that is not an array, e.g. `{people: 5}`: `Array.isArray(j)` is
  false and `j.people ?? []` keeps the raw value, which `setPeople`
  installs verbatim -/
  | jobjPeopleRaw
  /-- JSON `null` (reading `j.people` throws a `TypeError`) -/
  | jnull
  /-- any other JSON value: number, string, boolean, or an object whose
  `people` field is absent or `null` (`j.people` evaluates to `undefined`
  or `null`, so `j.people ?? []` is `[]`) -/
  | jother
deriving DecidableEq, Repr

/-- The value held by the `people` state variable.  TypeScript declares it
`Person[]`, but `setPeople` receives whatever
`Array.isArray(j) ? j : (j.people ?? [])` produced, which for a body with
a non-array, non-nullish `people` field is that raw value, not a list. -/
inductive PeopleValue where
  /-- a proper array of person records -/
  | list (people : List Person)
  /-- a non-array value installed verbatim (e.g. the number 5) -/
  | raw
deriving DecidableEq, Repr

/-- The outcome of `fetch` + `r.json()`: either both promises resolve and
yield a parsed JSON value, or one rejects (network failure or a body that
is not valid JSON). -/
inductive FetchResult where
  | netFail
  | ok (j : Json)
deriving DecidableEq, Repr

/-- The body of the variant-2 fetch effect past `r.json()`:
`const arr: Person[] = Array.isArray(j) ? j : (j.people ?? []);`
`.error` models a thrown exception (reading `.people` of `null`); a
present non-array `people` field passes through `??` untouched, so the
raw value is what gets installed. -/
def parseBody (j : Json) : Except (List Char) PeopleValue :=
  match j with
  | .jarr people => .ok (.list people)
  | .jobjPeople people => .ok (.list people)
  | .jobjPeopleRaw => .ok .raw
  | .jnull => .error "TypeError".data
  | .jother => .ok (.list [])

/-- The whole variant-2 fetch effect of `App.tsx`
(`(async () => { ... })().catch(console.error)`), as a function from the
fetch outcome and the previous `people` state to the `people` state
afterwards.  `.catch(console.error)` consumes every rejection, so the
result is always an `Except.ok`; a rejection leaves the previous state in
place. -/
def fetchRun (r : FetchResult) (prev : PeopleValue) : Except (List Char) PeopleValue :=
  match r with
  | .netFail => .ok prev
  | .ok j =>
    match parseBody j with
    | .ok v => .ok v
    | .error _ => .ok prev

/-- The `people` state after the fetch effect (total: no exception escapes
the handler itself). -/
def fetchEffect (r : FetchResult) (prev : PeopleValue) : PeopleValue :=
  match fetchRun r prev with
  | .ok v => v
  | .error _ => prev

/-- The render layer's first array operation on the `people` state
(`people.filter(...)` in `filteredAll`, `people.forEach` in `MapView`):
on a proper list it yields the list; on a raw non-array value it throws a
`TypeError`, uncaught by anything in the component. -/
def renderPeople : PeopleValue → Except (List Char) (List Person)
  | .list people => .ok people
  | .raw => .error "TypeError".data

/-! ### MapView (`src/saferider-FE/src/components/MapView.tsx`) -/

/-- `colorByStatus` from `MapView.tsx`:
`s === "missing" ? "#ef4444" : s === "found" ? "#16a34a" : "#eab308"`.
`"#ef4444"` is red, `"#16a34a"` green, `"#eab308"` yellow. -/
def colorByStatus : Status → List Char
  | .missing => "#ef4444".data
  | .found => "#16a34a".data
  | .searching => "#eab308".data

/-- The visual content of a marker image produced by `markerImageFor`:
the inner dot's fill color and the outer ring's stroke color of the SVG. -/
structure MarkerImage where
  fill : List Char
  stroke : List Char
deriving DecidableEq, Repr

/-- `markerImageFor` from `MapView.tsx`:
`const color = colorByStatus(status); const stroke = selected ? "#3b82f6" : color;`
with the SVG drawing the inner circle with `fill='${color}'` and the outer
circle with `stroke='${stroke}'`. -/
def markerImageFor (status : Status) (selected : Bool) : MarkerImage :=
  let color := colorByStatus status
  let stroke := if selected then "#3b82f6".data else color
  { fill := color, stroke := stroke }

/-- A map marker as the reconciliation effect creates it: position, image,
z-index, and the person id its click handler selects. -/
structure Marker where
  pid : List Char
  lat : ℚ
  lng : ℚ
  image : MarkerImage
  zIndex : Nat
deriving DecidableEq, Repr

/-- A label overlay as the reconciliation effect creates it. -/
structure Overlay where
  pid : List Char
  lat : ℚ
  lng : ℚ
  zIndex : Nat
deriving DecidableEq, Repr

/-- `selectedPerson?.id === p.id` inside the reconciliation loop. -/
def isSelected (sel : Option Person) (p : Person) : Bool :=
  match sel with
  | some s => s.id == p.id
  | none => false

/-- The marker built for person `p`:
`new kakao.maps.Marker({ position: pos, image: markerImageFor(p.status, selected), zIndex: selected ? 5 : 3 })`. -/
def mkMarker (sel : Option Person) (p : Person) : Marker :=
  { pid := p.id, lat := p.lat, lng := p.lng
    image := markerImageFor p.status (isSelected sel p)
    zIndex := if isSelected sel p then 5 else 3 }

/-- The overlay built for person `p`:
`new kakao.maps.CustomOverlay({ position: pos, content: overlayHTML(p), yAnchor: 0, zIndex: selected ? 6 : 4 })`. -/
def mkOverlay (sel : Option Person) (p : Person) : Overlay :=
  { pid := p.id, lat := p.lat, lng := p.lng
    zIndex := if isSelected sel p then 6 else 4 }

/-- The markers and overlays currently placed on the map
(`markersRef.current` / `overlaysRef.current`). -/
structure MapState where
  markers : List Marker
  overlays : List Overlay
deriving DecidableEq, Repr

/-- One `setMap` call the reconciliation effect issues, in order. -/
inductive Ev where
  | removeMarker (m : Marker)
  | removeOverlay (o : Overlay)
  | addMarker (m : Marker)
  | addOverlay (o : Overlay)
deriving DecidableEq, Repr

/-- Whether an event removes something from the map (`setMap(null)`). -/
def Ev.isRemove : Ev → Bool
  | .removeMarker _ => true
  | .removeOverlay _ => true
  | _ => false

/-- Whether an event places something on the map (`setMap(mapObj)`). -/
def Ev.isAdd : Ev → Bool
  | .addMarker _ => true
  | .addOverlay _ => true
  | _ => false

/-- A `kakao.maps.LatLngBounds` under construction: `none` is the freshly
constructed empty bounds, `some` is the smallest box covering the points
extended into it so far. -/
structure BoundsBox where
  minLat : ℚ
  maxLat : ℚ
  minLng : ℚ
  maxLng : ℚ
deriving DecidableEq, Repr

/-- `bounds.extend(new kakao.maps.LatLng(p.lat, p.lng))`. -/
def extendBounds (b : Option BoundsBox) (lat lng : ℚ) : Option BoundsBox :=
  match b with
  | none => some { minLat := lat, maxLat := lat, minLng := lng, maxLng := lng }
  | some box =>
    some { minLat := min box.minLat lat, maxLat := max box.maxLat lat
           minLng := min box.minLng lng, maxLng := max box.maxLng lng }

/-- `const bounds = new kakao.maps.LatLngBounds();`
`people.forEach(p => bounds.extend(new kakao.maps.LatLng(p.lat, p.lng)));`. -/
def boundsOf (people : List Person) : Option BoundsBox :=
  people.foldl (fun b p => extendBounds b p.lat p.lng) none

/-- A `setBounds(bounds, 50, 50, 50, 50)` call: the fitted box and the four
paddings (left, top, right, bottom, in px). -/
structure FitCall where
  box : BoundsBox
  padLeft : Nat
  padTop : Nat
  padRight : Nat
  padBottom : Nat
deriving DecidableEq, Repr

/-- The outcome of one run of the marker-reconciliation effect on an
initialized map: the ordered `setMap` calls it issues, the new marker and
overlay collections, and the viewport-fit call (if any). -/
structure ReconcileResult where
  trace : List Ev
  state : MapState
  fit : Option FitCall
deriving DecidableEq, Repr

/-- The reconciliation effect of `MapView.tsx` (list/selection change),
for an initialized map (`mapObj.current` and `window.kakao.maps` present):
1. `markersRef.current.forEach(m => m.setMap(null))` and the same for
   overlays; both ref arrays are reset to `[]`;
2. for each person, a marker is created and placed, then its overlay;
   both are pushed onto the refs;
3. a bounds object is extended with every person's coordinate and, if the
   list is non-empty, `setBounds(bounds, 50, 50, 50, 50)` fits the
   viewport (an empty list leaves the viewport untouched). -/
def reconcile (people : List Person) (sel : Option Person) (st : MapState) :
    ReconcileResult :=
  { trace :=
      st.markers.map Ev.removeMarker ++ st.overlays.map Ev.removeOverlay ++
        people.flatMap (fun p => [Ev.addMarker (mkMarker sel p), Ev.addOverlay (mkOverlay sel p)])
    state :=
      { markers := people.map (mkMarker sel), overlays := people.map (mkOverlay sel) }
    fit :=
      if people.isEmpty then none
      else
        match boundsOf people with
        | some box =>
          some { box := box, padLeft := 50, padTop := 50, padRight := 50, padBottom := 50 }
        | none => none }

/-- A box covers a coordinate when the coordinate lies inside it. -/
def BoundsBox.covers (b : BoundsBox) (lat lng : ℚ) : Prop :=
  b.minLat ≤ lat ∧ lat ≤ b.maxLat ∧ b.minLng ≤ lng ∧ lng ≤ b.maxLng

/-! ### Sample records used for concrete witnesses -/

/-- A sample missing person. -/
def alice : Person :=
  { id := "p1".data, name := "Alice".data, status := .missing, lat := 37, lng := 127 }

/-- A second sample person, with a different id and name. -/
def bob : Person :=
  { id := "p2".data, name := "Bob".data, status := .found, lat := 36, lng := 128 }

/-! ### Helper lemmas -/

/-- The empty needle is a substring of every haystack
(JS `hay.includes("")` is always `true`). -/
theorem containsSub_nil (hay : List Char) : containsSub hay [] = true := by
  simp [containsSub, List.nil_infix]

/-- `trimChars` is `rdropWhile` after `dropWhile` (both on whitespace). -/
theorem trimChars_eq (cs : List Char) :
    trimChars cs =
      List.rdropWhile Char.isWhitespace (cs.dropWhile Char.isWhitespace) := rfl

/-- Dropping leading whitespace twice is the same as dropping it once off a
tail-trimmed, head-trimmed list: the head of the `rdropWhile` of an already
`dropWhile`-stable list still fails the predicate. -/
theorem dropWhile_rdropWhile_of_dropWhile_eq_self (p : Char → Bool) (l : List Char)
    (hl : l.dropWhile p = l) :
    (List.rdropWhile p l).dropWhile p = List.rdropWhile p l := by
  obtain ⟨s, hs⟩ := List.rdropWhile_prefix p l
  rcases ht : List.rdropWhile p l with _ | ⟨a, as⟩
  · simp
  · rw [ht] at hs
    by_cases hpa : p a
    · exfalso
      rw [← hs, List.cons_append, List.dropWhile_cons, if_pos hpa] at hl
      have h1 : (List.dropWhile p (as ++ s)).length ≤ (as ++ s).length :=
        (List.dropWhile_sublist p).length_le
      rw [hl] at h1
      simp at h1
    · rw [List.dropWhile_cons, if_neg hpa]

/-- `trimChars` is idempotent. -/
theorem trimChars_idem (cs : List Char) : trimChars (trimChars cs) = trimChars cs := by
  rw [trimChars_eq, trimChars_eq]
  rw [dropWhile_rdropWhile_of_dropWhile_eq_self Char.isWhitespace
    (cs.dropWhile Char.isWhitespace) (List.dropWhile_idempotent _ _)]
  exact List.rdropWhile_idempotent _ _

/-- A query made of whitespace only trims to the empty string. -/
theorem trimChars_eq_nil_of_whitespace (q : List Char)
    (hq : ∀ c ∈ q, c.isWhitespace = true) : trimChars q = [] := by
  rw [trimChars_eq, List.dropWhile_eq_nil_iff.mpr hq]
  exact List.rdropWhile_nil _

/-- A trimmed-to-empty query makes `filteredAll` the identity. -/
theorem filteredAll_of_trim_nil (q : List Char) (L : List Person)
    (hq : trimChars q = []) : filteredAll q L = L := by
  simp [filteredAll, hq, lowerChars]

/-- `totalPagesOf` is at least 1. -/
theorem totalPagesOf_pos (n : Nat) : 1 ≤ totalPagesOf n :=
  le_max_left 1 _

/-- The spec's words for the person filter (used to compare against the
code's `filteredAll`): "the filtered list consists exactly of the persons
of L whose name contains q as a case-insensitive substring, in the
original order of L; filtering L with the empty query returns L
unchanged in order". -/
def specPersonFilter (q : List Char) (L : List Person) : List Person :=
  if q.isEmpty then L
  else L.filter (fun p => containsSub (lowerChars p.name) (lowerChars q))

/-! ### Claim theorems -/

/-- **C6** (marker appearance): the marker's fill color is a pure function
of status only — missing→red (`#ef4444`), found→green (`#16a34a`),
searching→yellow (`#eab308`) — independent of whether the person is
selected; selection changes only the stroke color (to `#3b82f6`) and the
z-index (5 vs 3), never the fill color. -/
theorem marker_appearance_pure :
    (∀ (s : Status) (sel : Bool), (markerImageFor s sel).fill = colorByStatus s) ∧
    colorByStatus Status.missing = "#ef4444".data ∧
    colorByStatus Status.found = "#16a34a".data ∧
    colorByStatus Status.searching = "#eab308".data ∧
    (∀ s : Status, (markerImageFor s true).stroke = "#3b82f6".data ∧
      (markerImageFor s false).stroke = colorByStatus s) ∧
    (∀ (p : Person) (sel : Option Person),
      (mkMarker sel p).image.fill = colorByStatus p.status ∧
      (mkMarker sel p).zIndex = if isSelected sel p then 5 else 3) :=
  ⟨fun _ _ => rfl, rfl, rfl, rfl, fun _ => ⟨rfl, rfl⟩, fun _ _ => ⟨rfl, rfl⟩⟩

/-- **C10** (camera search): the CCTV page's filtered camera list consists
exactly of the cameras whose name OR location contains the query as a
case-insensitive substring, in original order; the empty query returns all
cameras. -/
theorem camera_search_correct (sq : List Char) (cams : List Camera) :
    (filteredCameras sq cams).Sublist cams ∧
    (∀ c, c ∈ filteredCameras sq cams ↔ c ∈ cams ∧
      (containsSub (lowerChars c.name) (lowerChars sq) = true ∨
        containsSub (lowerChars c.location) (lowerChars sq) = true)) ∧
    filteredCameras [] cams = cams := by
  refine ⟨List.filter_sublist cams, fun c => ?_, ?_⟩
  · simp [filteredCameras, List.mem_filter]
  · apply List.filter_eq_self.mpr
    intro c _
    simp [lowerChars, containsSub_nil]

/-- **C9** (query whitespace-invariance): filtering with `q` equals
filtering with `trim(q)`, and a query consisting only of whitespace
returns the person list unchanged. -/
theorem query_trim_invariant (q : List Char) (L : List Person) :
    filteredAll q L = filteredAll (trimChars q) L ∧
    ((∀ c ∈ q, c.isWhitespace = true) → filteredAll q L = L) := by
  constructor
  · unfold filteredAll
    rw [trimChars_idem]
  · intro hq
    exact filteredAll_of_trim_nil q L (trimChars_eq_nil_of_whitespace q hq)

/-- Witness for `query_trim_invariant` at the whitespace-only query `" "`
and the one-person list `[alice]`. -/
theorem query_trim_invariant_witness :
    filteredAll " ".data [alice] = filteredAll (trimChars " ".data) [alice] ∧
    filteredAll " ".data [alice] = [alice] :=
  ⟨(query_trim_invariant " ".data [alice]).1,
    (query_trim_invariant " ".data [alice]).2 (by decide)⟩

/-- **C3**, counterexample: the claim reads the filter as matching the raw
query `q` against names, but the code trims `q` first.  On the query `" "`
(one space) and the list `[bob]`, the code returns `[bob]` (the trimmed
query is empty) while a filter matching the raw `" "` against the name
`"Bob"` would return `[]`. -/
theorem person_filter_counterexample :
    filteredAll " ".data [bob] = [bob] ∧
    specPersonFilter " ".data [bob] = [] ∧
    filteredAll " ".data [bob] ≠ specPersonFilter " ".data [bob] := by
  refine ⟨rfl, rfl, fun h => ?_⟩
  rw [show specPersonFilter " ".data [bob] = [] from rfl] at h
  exact List.cons_ne_nil bob [] h

/-- **C3**, amended: the filtered list consists exactly of the persons of
`L` whose name contains `trim(q)` as a case-insensitive substring, in the
original order of `L`; any query that trims to the empty string (in
particular the empty query) returns `L` unchanged in order. -/
theorem person_filter_amended (q : List Char) (L : List Person) :
    (filteredAll q L).Sublist L ∧
    (∀ p, p ∈ filteredAll q L ↔ p ∈ L ∧
      containsSub (lowerChars p.name) (lowerChars (trimChars q)) = true) ∧
    (trimChars q = [] → filteredAll q L = L) := by
  refine ⟨?_, fun p => ?_, filteredAll_of_trim_nil q L⟩
  · by_cases h : (lowerChars (trimChars q)).isEmpty = true
    · simp [filteredAll, h]
    · simp only [filteredAll, h, if_false, Bool.false_eq_true]
      exact List.filter_sublist L
  · by_cases h : (lowerChars (trimChars q)).isEmpty = true
    · have hnil : lowerChars (trimChars q) = [] := List.isEmpty_iff.mp h
      simp [filteredAll, h, hnil, containsSub_nil]
    · simp [filteredAll, h, List.mem_filter]

/-- Witness for `person_filter_amended`: the query `" "` trims to empty
and leaves `[alice]` unchanged. -/
theorem person_filter_amended_witness :
    filteredAll " ".data [alice] = [alice] :=
  (person_filter_amended " ".data [alice]).2.2 rfl

/-- **C7** (page reset on query change): for every state, applying a query
change sets the current page to 1 (the clamp effect keeps it at 1 because
the page count is at least 1). -/
theorem query_change_resets_page (st : AppState) (q' : List Char) :
    (step st (Op.setQuery q')).page = 1 := by
  have h1 : 1 ≤ (AppState.mk st.people q' 1).totalPages := totalPagesOf_pos _
  show (clampPage (AppState.mk st.people q' 1)).page = 1
  unfold clampPage
  split
  · next h => simp only [AppState.totalPages] at h h1 ⊢; omega
  · rfl

/-- **C1** (selection auto-repair): the repaired selection is `none`
exactly when the filtered set is empty; a selection whose id is still
present in the filtered set is kept unchanged; a missing selection (or one
whose id is absent) becomes the filtered set's first element. -/
theorem selection_repair_correct (filtered : List Person) (sel : Option Person) :
    (repairSelection filtered sel = none ↔ filtered = []) ∧
    (∀ s, sel = some s → (filtered.any fun p => p.id == s.id) = true →
      repairSelection filtered sel = some s) ∧
    (sel = none → filtered ≠ [] → repairSelection filtered sel = filtered.head?) ∧
    (∀ s, sel = some s → (filtered.any fun p => p.id == s.id) = false →
      filtered ≠ [] → repairSelection filtered sel = filtered.head?) := by
  cases filtered with
  | nil =>
    refine ⟨by simp [repairSelection], ?_, ?_, ?_⟩
    · intro s _ hany
      simp at hany
    · intro _ hne
      exact absurd rfl hne
    · intro s _ _ hne
      exact absurd rfl hne
  | cons a as =>
    refine ⟨?_, ?_, ?_, ?_⟩
    · constructor
      · intro hr
        exfalso
        cases sel with
        | none => simp [repairSelection] at hr
        | some s =>
          by_cases hany : ((a :: as).any fun p => p.id == s.id) = true
          · simp [repairSelection, hany] at hr
          · simp only [Bool.not_eq_true] at hany
            simp [repairSelection, hany] at hr
      · intro h
        exact absurd h (List.cons_ne_nil a as)
    · intro s hs hany
      subst hs
      simp [repairSelection, hany]
    · intro hs _
      subst hs
      simp [repairSelection]
    · intro s hs hany _
      subst hs
      simp [repairSelection, hany]

/-- Witness for `selection_repair_correct`: empty filtered set gives
`none`; a still-present selection is kept; a missing or absent selection
becomes the first element. -/
theorem selection_repair_correct_witness :
    repairSelection [] (some bob) = none ∧
    repairSelection [alice] (some alice) = some alice ∧
    repairSelection [alice] none = some alice ∧
    repairSelection [alice] (some bob) = some alice :=
  ⟨(selection_repair_correct [] (some bob)).1.mpr rfl,
   (selection_repair_correct [alice] (some alice)).2.1 alice rfl (by decide),
   (selection_repair_correct [alice] none).2.2.1 rfl (List.cons_ne_nil alice []),
   (selection_repair_correct [alice] (some bob)).2.2.2 bob rfl (by decide)
     (List.cons_ne_nil alice [])⟩

/-- The pagination invariant: the current page lies in `[1, totalPages]`. -/
def pageInv (st : AppState) : Prop :=
  1 ≤ st.page ∧ st.page ≤ st.totalPages

/-- The clamp effect establishes the invariant from a positive page. -/
theorem clampPage_inv (st : AppState) (h : 1 ≤ st.page) : pageInv (clampPage st) := by
  have hpos : 1 ≤ st.totalPages := totalPagesOf_pos (filteredAll st.q st.people).length
  unfold clampPage pageInv
  split
  · exact ⟨hpos, le_refl _⟩
  · next hle => exact ⟨h, Nat.le_of_not_lt hle⟩

/-- Every operation, followed by the clamp effect, preserves the
pagination invariant. -/
theorem step_inv (st : AppState) (op : Op) (h : pageInv st) : pageInv (step st op) := by
  apply clampPage_inv
  cases op with
  | setQuery q => exact le_refl 1
  | setPeople people => exact h.1
  | prevPage => exact Nat.le_max_left 1 _
  | nextPage => exact le_min (totalPagesOf_pos _) (Nat.le_add_left 1 st.page)

/-- **C2** (pagination bounds): `totalPagesOf n` is the least page count
`k ≥ 1` with `n ≤ pageSize * k` — that is, `max(1, ceil(n / 5))` — and
after any sequence of operations from the initial state the current page
lies in `[1, totalPages]`. -/
theorem pagination_bounds :
    (∀ n : Nat, 1 ≤ totalPagesOf n ∧ n ≤ pageSize * totalPagesOf n ∧
      ∀ k : Nat, 1 ≤ k → n ≤ pageSize * k → totalPagesOf n ≤ k) ∧
    (∀ ops : List Op,
      1 ≤ (runOps ops).page ∧ (runOps ops).page ≤ (runOps ops).totalPages) := by
  constructor
  · intro n
    unfold totalPagesOf pageSize
    refine ⟨le_max_left 1 _, ?_, ?_⟩
    · omega
    · intro k hk hnk
      omega
  · intro ops
    have hrun : ∀ st, pageInv st → pageInv (ops.foldl step st) := by
      induction ops with
      | nil => exact fun st h => h
      | cons op ops ih => exact fun st h => ih _ (step_inv st op h)
    exact hrun initState ⟨le_refl 1, totalPagesOf_pos _⟩

/-- Witness for `pagination_bounds`: 7 persons need at most 2 pages, and a
next/previous click sequence keeps the page at least 1. -/
theorem pagination_bounds_witness :
    totalPagesOf 7 ≤ 2 ∧ 1 ≤ (runOps [Op.nextPage, Op.prevPage]).page :=
  ⟨(pagination_bounds.1 7).2.2 2 (by decide) (by decide),
   (pagination_bounds.2 [Op.nextPage, Op.prevPage]).1⟩

/-- **C4**, counterexample: two successfully parsed non-conforming bodies
violate the claim.  A body that is not an array and has no usable `people`
field (`Json.jother`, e.g. `{}` or `42`) resets a non-empty person list to
`[]` instead of leaving it untouched; a body whose `people` field holds a
non-array value (`Json.jobjPeopleRaw`, e.g. `{people: 5}`) installs that
raw value verbatim — neither the previous list nor `[]` — and the next
render's array operation on it throws into the rendering layer. -/
theorem fetch_atomicity_counterexample :
    fetchEffect (FetchResult.ok Json.jother) (PeopleValue.list [alice]) =
      PeopleValue.list [] ∧
    PeopleValue.list [alice] ≠ PeopleValue.list [] ∧
    fetchEffect (FetchResult.ok Json.jobjPeopleRaw) (PeopleValue.list [alice]) =
      PeopleValue.raw ∧
    (∃ e, renderPeople
      (fetchEffect (FetchResult.ok Json.jobjPeopleRaw) (PeopleValue.list [alice])) =
      Except.error e) :=
  ⟨rfl, fun h => List.cons_ne_nil alice [] (PeopleValue.list.inj h), rfl, ⟨_, rfl⟩⟩

/-- **C4**, amended: the fetch handler itself never lets an exception
escape (`fetchRun` always returns `Except.ok`); a network failure, a body
that fails to parse, or a `null` body (whose `people` access throws inside
the handler and is caught) leaves the `people` state at its previous
value.  A successfully parsed body that is not an array and has an absent
or nullish `people` field resets the state to the empty list; one whose
`people` field holds a non-array value installs that raw value verbatim,
and the next render throws on it — so for parsed non-conforming bodies the
state does not stay at an arbitrary previous value, and in the raw case an
exception does reach the rendering layer.  Array and `{ people: [...] }`
bodies install the received list, which renders without throwing. -/
theorem fetch_atomicity_amended (prev : PeopleValue) :
    (∀ r : FetchResult, ∃ v, fetchRun r prev = Except.ok v) ∧
    fetchRun FetchResult.netFail prev = Except.ok prev ∧
    fetchRun (FetchResult.ok Json.jnull) prev = Except.ok prev ∧
    fetchRun (FetchResult.ok Json.jother) prev = Except.ok (PeopleValue.list []) ∧
    fetchRun (FetchResult.ok Json.jobjPeopleRaw) prev = Except.ok PeopleValue.raw ∧
    (∃ e, renderPeople PeopleValue.raw = Except.error e) ∧
    (∀ people,
      fetchRun (FetchResult.ok (Json.jarr people)) prev =
        Except.ok (PeopleValue.list people) ∧
      fetchRun (FetchResult.ok (Json.jobjPeople people)) prev =
        Except.ok (PeopleValue.list people) ∧
      renderPeople (PeopleValue.list people) = Except.ok people) := by
  refine ⟨fun r => ?_, rfl, rfl, rfl, rfl, ⟨_, rfl⟩, fun people => ⟨rfl, rfl, rfl⟩⟩
  cases r with
  | netFail => exact ⟨prev, rfl⟩
  | ok j => cases j <;> exact ⟨_, rfl⟩

/-- **C5** (marker reconciliation): the effect's `setMap` trace is a block
of removals followed by a block of additions — every marker and overlay of
the previous reconciliation is removed before any new one is created — and
afterwards the map carries exactly one marker and one overlay per person
of the current list (counts equal the list length; the new collections
depend only on the current list and selection, so nothing leaks from the
prior render). -/
theorem marker_reconciliation_exact (people : List Person) (sel : Option Person)
    (st : MapState) :
    (∃ removals additions,
      (reconcile people sel st).trace = removals ++ additions ∧
      (∀ e ∈ removals, e.isRemove = true) ∧
      (∀ e ∈ additions, e.isAdd = true) ∧
      (∀ m ∈ st.markers, Ev.removeMarker m ∈ removals) ∧
      (∀ o ∈ st.overlays, Ev.removeOverlay o ∈ removals)) ∧
    (reconcile people sel st).state.markers = people.map (mkMarker sel) ∧
    (reconcile people sel st).state.overlays = people.map (mkOverlay sel) ∧
    (reconcile people sel st).state.markers.length = people.length ∧
    (reconcile people sel st).state.overlays.length = people.length := by
  refine ⟨⟨st.markers.map Ev.removeMarker ++ st.overlays.map Ev.removeOverlay,
    people.flatMap (fun p => [Ev.addMarker (mkMarker sel p), Ev.addOverlay (mkOverlay sel p)]),
    by simp [reconcile], ?_, ?_, ?_, ?_⟩,
    rfl, rfl, by simp [reconcile], by simp [reconcile]⟩
  · intro e he
    rcases List.mem_append.mp he with h | h
    · obtain ⟨m, _, rfl⟩ := List.mem_map.mp h
      rfl
    · obtain ⟨o, _, rfl⟩ := List.mem_map.mp h
      rfl
  · intro e he
    obtain ⟨p, _, hp⟩ := List.mem_flatMap.mp he
    simp only [List.mem_cons, List.mem_singleton, List.not_mem_nil, or_false] at hp
    rcases hp with rfl | rfl <;> rfl
  · intro m hm
    exact List.mem_append_left _ (List.mem_map_of_mem _ hm)
  · intro o ho
    exact List.mem_append_right _ (List.mem_map_of_mem _ ho)

/-- Witness for `marker_reconciliation_exact`: one person yields exactly
one marker. -/
theorem marker_reconciliation_exact_witness :
    (reconcile [alice] none { markers := [], overlays := [] }).state.markers.length = 1 :=
  (marker_reconciliation_exact [alice] none { markers := [], overlays := [] }).2.2.2.1

/-- `extendBounds` always yields a box, and that box covers the point just
extended into it. -/
theorem extendBounds_covers_self (b : Option BoundsBox) (lat lng : ℚ) :
    ∃ box, extendBounds b lat lng = some box ∧ box.covers lat lng := by
  cases b with
  | none => exact ⟨_, rfl, le_refl _, le_refl _, le_refl _, le_refl _⟩
  | some bx =>
    exact ⟨_, rfl, min_le_right _ _, le_max_right _ _, min_le_right _ _, le_max_right _ _⟩

/-- Extending a box keeps every point it already covered. -/
theorem extendBounds_covers_mono (bx : BoundsBox) (lat lng la ln : ℚ)
    (h : bx.covers la ln) :
    ∀ box, extendBounds (some bx) lat lng = some box → box.covers la ln := by
  intro box hbox
  obtain ⟨h1, h2, h3, h4⟩ := h
  rw [show extendBounds (some bx) lat lng =
    some { minLat := min bx.minLat lat, maxLat := max bx.maxLat lat
           minLng := min bx.minLng lng, maxLng := max bx.maxLng lng } from rfl] at hbox
  obtain rfl := (Option.some_inj.mp hbox).symm
  exact ⟨le_trans (min_le_left _ _) h1, le_trans h2 (le_max_left _ _),
    le_trans (min_le_left _ _) h3, le_trans h4 (le_max_left _ _)⟩

/-- Folding `extendBounds` over a list from a box yields a box that keeps
covering what the start box covered and covers every listed coordinate. -/
theorem foldl_extendBounds_covers (people : List Person) (bx : BoundsBox) :
    ∃ box, people.foldl (fun b p => extendBounds b p.lat p.lng) (some bx) = some box ∧
      (∀ la ln, bx.covers la ln → box.covers la ln) ∧
      (∀ p ∈ people, box.covers p.lat p.lng) := by
  induction people generalizing bx with
  | nil => exact ⟨bx, rfl, fun _ _ h => h, by simp⟩
  | cons p ps ih =>
    obtain ⟨bx', hbx', hself⟩ := extendBounds_covers_self (some bx) p.lat p.lng
    obtain ⟨box, hbox, hmono, hall⟩ := ih bx'
    have hmono' : ∀ la ln, bx.covers la ln → box.covers la ln := fun la ln h =>
      hmono la ln (extendBounds_covers_mono bx p.lat p.lng la ln h bx' hbx')
    refine ⟨box, ?_, hmono', ?_⟩
    · rw [List.foldl_cons, hbx']
      exact hbox
    · intro q hq
      rcases List.mem_cons.mp hq with rfl | hq
      · exact hmono _ _ hself
      · exact hall q hq

/-- For a non-empty person list, the bounds built by the reconciliation
effect exist and cover every person's coordinate. -/
theorem boundsOf_covers (people : List Person) (hne : people ≠ []) :
    ∃ box, boundsOf people = some box ∧ ∀ p ∈ people, box.covers p.lat p.lng := by
  cases people with
  | nil => exact absurd rfl hne
  | cons p ps =>
    obtain ⟨bx0, hbx0, hself0⟩ := extendBounds_covers_self none p.lat p.lng
    obtain ⟨box, hbox, hmono, hall⟩ := foldl_extendBounds_covers ps bx0
    refine ⟨box, ?_, ?_⟩
    · unfold boundsOf
      rw [List.foldl_cons, hbx0]
      exact hbox
    · intro q hq
      rcases List.mem_cons.mp hq with rfl | hq
      · exact hmono _ _ hself0
      · exact hall q hq

/-- **C8** (viewport fit): after a reconciliation with a non-empty person
list the viewport is fitted (`setBounds`) to a box covering every person's
coordinate, with the fixed paddings 50/50/50/50; with an empty list no
`setBounds` call is made, leaving the viewport unchanged. -/
theorem viewport_fit_covers (people : List Person) (sel : Option Person) (st : MapState) :
    (people = [] → (reconcile people sel st).fit = none) ∧
    (people ≠ [] → ∃ fc, (reconcile people sel st).fit = some fc ∧
      fc.padLeft = 50 ∧ fc.padTop = 50 ∧ fc.padRight = 50 ∧ fc.padBottom = 50 ∧
      ∀ p ∈ people, fc.box.covers p.lat p.lng) := by
  constructor
  · intro h
    subst h
    rfl
  · intro hne
    obtain ⟨box, hbox, hcov⟩ := boundsOf_covers people hne
    refine ⟨{ box := box, padLeft := 50, padTop := 50, padRight := 50, padBottom := 50 },
      ?_, rfl, rfl, rfl, rfl, hcov⟩
    cases people with
    | nil => exact absurd rfl hne
    | cons p ps => simp [reconcile, hbox]

/-- Witness for `viewport_fit_covers`: the empty list fits nothing; a
one-person list fits a padded box covering that person. -/
theorem viewport_fit_covers_witness :
    (reconcile [] none { markers := [], overlays := [] }).fit = none ∧
    ∃ fc, (reconcile [alice] none { markers := [], overlays := [] }).fit = some fc ∧
      fc.padLeft = 50 ∧ fc.padTop = 50 ∧ fc.padRight = 50 ∧ fc.padBottom = 50 ∧
      ∀ p ∈ [alice], fc.box.covers p.lat p.lng :=
  ⟨(viewport_fit_covers [] none { markers := [], overlays := [] }).1 rfl,
   (viewport_fit_covers [alice] none { markers := [], overlays := [] }).2
     (List.cons_ne_nil alice [])⟩

end SafeRider
